import Mathlib

/-!
Shallow embedding of the hmgo BidCoS/UARTGW protocol stack.

Bytes are modelled as `Nat`; wherever the Go code relies on fixed-width
wrap-around, the embedding applies an explicit `% 256` (or `% 65536`).
Floating-point quantities (temperatures, voltages) are modelled as `ℚ`:
all computations the code performs on them (small integer numerators
divided by 2 or 10) are exact in both `float64` and `ℚ`, and the decimal
literals compared against are exact in both as well.
-/

set_option maxRecDepth 10000

namespace BidCoS

/-- Three-byte BidCoS address (Go `[3]byte`). -/
structure Addr where
  a0 : Nat
  a1 : Nat
  a2 : Nat
deriving DecidableEq, Repr

/-- BidCoS packet, mirroring `bidcos.Packet`: the three lowercase leading
fields (`status`, `info`, `rssi`) plus the exported fields. -/
structure Packet where
  status : Nat := 0
  info : Nat := 0
  rssi : Nat := 0
  Msgcnt : Nat := 0
  Flags : Nat := 0
  Cmd : Nat := 0
  Source : Addr := ⟨0, 0, 0⟩
  Dest : Addr := ⟨0, 0, 0⟩
  Payload : List Nat := []
deriving DecidableEq, Repr

/-- Packet flag `Burst` (1 << 4). -/
def Burst : Nat := 0x10

/-- Packet flag `BiDi` (1 << 5). -/
def BiDi : Nat := 0x20

/-- Packet flag `RepeatEnable` (1 << 7). -/
def RepeatEnable : Nat := 0x80

/-- Default flags for outgoing packets: `RepeatEnable | BiDi`. -/
def DefaultFlags : Nat := RepeatEnable ||| BiDi

/-- Config command byte (`bidcos.Config = 1`). -/
def Config : Nat := 1

/-- Config subcommand `ConfigPeerAdd = 1`. -/
def ConfigPeerAdd : Nat := 1

/-- Config subcommand `ConfigPeerRemove = 2`. -/
def ConfigPeerRemove : Nat := 2

/-- Config subcommand `ConfigPeerListReq = 3`. -/
def ConfigPeerListReq : Nat := 3

/-- Config subcommand `ConfigParamReq = 4`. -/
def ConfigParamReq : Nat := 4

/-- Config subcommand `ConfigStart = 5`. -/
def ConfigStart : Nat := 5

/-- Config subcommand `ConfigEnd = 6`. -/
def ConfigEnd : Nat := 6

/-- Config subcommand `ConfigWriteIndexPairs = 8`. -/
def ConfigWriteIndexPairs : Nat := 8

/-- Info subcommand `InfoParamResponsePairs = 2`. -/
def InfoParamResponsePairs : Nat := 2

/-- Info subcommand `InfoParamResponseSeq = 3`. -/
def InfoParamResponseSeq : Nat := 3

/-- Encoding of `Packet.Encode`, with the global rolling message counter
(`messageCounter.counter`, a byte) made an explicit argument; returns the
wire bytes together with the new counter value.  When `Msgcnt == 0` the
counter is substituted and advanced by 9 (byte arithmetic, hence `% 256`). -/
def Packet.Encode (p : Packet) (counter : Nat) : List Nat × Nat :=
  let cnt := if p.Msgcnt = 0 then counter else p.Msgcnt
  let counter' := if p.Msgcnt = 0 then (counter + 9) % 256 else counter
  let burst := if p.Flags &&& 0x10 = 0x10 then 1 else 0
  ([0x00, 0x00, burst, cnt, p.Flags, p.Cmd,
    p.Source.a0, p.Source.a1, p.Source.a2,
    p.Dest.a0, p.Dest.a1, p.Dest.a2] ++ p.Payload, counter')

/-- Decoding of `bidcos.Decode`: fails (Go returns an error) when fewer than
12 bytes are given, otherwise slices the fields positionally. -/
def Decode (b : List Nat) : Option Packet :=
  if b.length < 12 then none
  else some
    { status := b.getD 0 0
      info := b.getD 1 0
      rssi := b.getD 2 0
      Msgcnt := b.getD 3 0
      Flags := b.getD 4 0
      Cmd := b.getD 5 0
      Source := ⟨b.getD 6 0, b.getD 7 0, b.getD 8 0⟩
      Dest := ⟨b.getD 9 0, b.getD 10 0, b.getD 11 0⟩
      Payload := b.drop 12 }

end BidCoS

namespace Uartgw

/-- Escaping of a single byte by `escapingWriter.Write`: `0xfd` and `0xfc`
are emitted as the pair `0xfc, b & 0x7f`; all other bytes pass through. -/
def escapeOne (b : Nat) : List Nat :=
  if b = 0xfd ∨ b = 0xfc then [0xfc, b &&& 0x7f] else [b]

/-- Escaping of a whole buffer (the loop body of `escapingWriter.Write`). -/
def escape (p : List Nat) : List Nat :=
  p.flatMap escapeOne

/-- Unescaping loop of `unescapingReader.Read`: `esc` is the `escapeByte`
flag; a `0xfc` sets the flag and is skipped, a byte following the flag is
OR-ed with `0x80`. -/
def unescapeGo (esc : Bool) : List Nat → List Nat
  | [] => []
  | b :: rest =>
    if b = 0xfc then unescapeGo true rest
    else (if esc then b ||| 0x80 else b) :: unescapeGo false rest

/-- Unescaping of a whole buffer, starting with a clear escape flag. -/
def unescape (p : List Nat) : List Nat :=
  unescapeGo false p

end Uartgw

namespace Hm

open BidCoS

/-- Per-device message counter `StandardDevice.count`: returns the current
value and stores `msgcnt + 9` (byte arithmetic, hence `% 256`). -/
def count (msgcnt : Nat) : Nat × Nat :=
  (msgcnt, (msgcnt + 9) % 256)

/-- Packet built by `StandardDevice.ConfigStart`. -/
def configStartPkt (cnt channel paramlist : Nat) (addr : Addr) : Packet :=
  { Msgcnt := cnt
    Flags := DefaultFlags
    Cmd := Config
    Dest := addr
    Payload := [channel, BidCoS.ConfigStart, 0, 0, 0, 0, paramlist] }

/-- Packet built by `StandardDevice.ConfigWriteIndex`. -/
def configWriteIndexPkt (cnt channel : Nat) (kv : List Nat) (addr : Addr) : Packet :=
  { Msgcnt := cnt
    Flags := DefaultFlags
    Cmd := Config
    Dest := addr
    Payload := [channel, BidCoS.ConfigWriteIndexPairs] ++ kv }

/-- Packet built by `StandardDevice.ConfigEnd`. -/
def configEndPkt (cnt channel : Nat) (addr : Addr) : Packet :=
  { Msgcnt := cnt
    Flags := DefaultFlags
    Cmd := Config
    Dest := addr
    Payload := [channel, BidCoS.ConfigEnd] }

/-- Packet built by `StandardDevice.ConfigPeerAdd`. -/
def configPeerAddPkt (cnt channel : Nat) (peerAddr : Addr) (peerChannel : Nat)
    (addr : Addr) : Packet :=
  { Msgcnt := cnt
    Flags := DefaultFlags ||| Burst
    Cmd := Config
    Dest := addr
    Payload := [channel, BidCoS.ConfigPeerAdd,
                peerAddr.a0, peerAddr.a1, peerAddr.a2, peerChannel, 0x00] }

/-- Packet built by `StandardDevice.ConfigPeerRemove`. -/
def configPeerRemovePkt (cnt channel : Nat) (peerAddr : Addr) (peerChannel : Nat)
    (addr : Addr) : Packet :=
  { Msgcnt := cnt
    Flags := DefaultFlags ||| Burst
    Cmd := Config
    Dest := addr
    Payload := [channel, BidCoS.ConfigPeerRemove,
                peerAddr.a0, peerAddr.a1, peerAddr.a2, peerChannel, 0x00] }

/-- Errors that can surface from `LoadConfig`'s reply-processing loop.
`protocolError` models the `fmt.Errorf` returns, `outOfRange` models a Go
runtime panic from out-of-bounds slice indexing, `readError` models the
read loop running out of replies (a failed or blocked `ReadPacket`). -/
inductive CfgErr where
  | protocolError
  | outOfRange
  | readError
deriving DecidableEq, Repr

/-- Inner loop of the `InfoParamResponsePairs` case of `LoadConfig`,
`for i := 1; i < len(p); i += 2 { mem[p[i]] = p[i+1] }`, applied to the
tail `p[1:]`; the loop consumes an (index, value) pair per iteration.
With a single byte left, the loop guard `i < len(p)` holds but the value
access `p[i+1]` is past the end of the slice: a Go runtime panic
(`outOfRange`). -/
def pairsLoop (mem : List Nat) : List Nat → Except CfgErr (List Nat)
  | [] => .ok mem
  | [_] => .error .outOfRange
  | idx :: val :: rest => pairsLoop (mem.set idx val) rest

/-- Inner loop of the `InfoParamResponseSeq` case of `LoadConfig`,
`for i := 0; i < len(p)-2; i++ { mem[p[1]+byte(i)] = p[2+i] }`, applied
to the starting index `start = p[1]` and the run `p[2:]`; the write index
is byte arithmetic, hence `% 256`. -/
def seqLoop (mem : List Nat) (start i : Nat) : List Nat → List Nat
  | [] => mem
  | v :: rest => seqLoop (mem.set ((start + i) % 256) v) start (i + 1) rest

/-- Processing of one reply payload inside `LoadConfig`'s `switch p[0]`.
Returns the updated memory and whether the sentinel ended the response.
An empty payload panics on `p[0]`; a one-byte `InfoParamResponseSeq`
payload panics on `p[1]`. -/
def processReply (mem : List Nat) (p : List Nat) : Except CfgErr (List Nat × Bool) :=
  match p with
  | [] => .error .outOfRange
  | p0 :: rest =>
    if p0 = InfoParamResponsePairs then
      if rest = [0x00, 0x00] then .ok (mem, true)
      else
        match pairsLoop mem rest with
        | .error e => .error e
        | .ok mem' => .ok (mem', false)
    else if p0 = InfoParamResponseSeq then
      match rest with
      | [] => .error .outOfRange
      | p1 :: vals =>
        if p1 = 0x00 then .ok (mem, true)
        else .ok (seqLoop mem p1 0 vals, false)
    else
      .error .protocolError

/-- Reply-reading loop of `StandardDevice.LoadConfig`: packets from a
different source are dropped, others are fed to `processReply` until the
sentinel breaks the loop.  Running out of replies models a read failure. -/
def loadConfigLoop (addr : Addr) (mem : List Nat) :
    List Packet → Except CfgErr (List Nat)
  | [] => .error .readError
  | pkt :: rest =>
    if pkt.Source = addr then
      match processReply mem pkt.Payload with
      | .error e => .error e
      | .ok (mem', true) => .ok mem'
      | .ok (mem', false) => loadConfigLoop addr mem' rest
    else
      loadConfigLoop addr mem rest

/-- Indices named by the (index, value) pairs of an
`InfoParamResponsePairs` tail: every first byte of a complete pair. -/
def pairIndices : List Nat → List Nat
  | [] => []
  | [_] => []
  | idx :: _ :: rest => idx :: pairIndices rest

/-- Indices covered by an `InfoParamResponseSeq` run of `n` values
starting at `start`: `start + i (mod 256)` for `i < n`. -/
def seqIndices (start n : Nat) : List Nat :=
  (List.range n).map fun i => (start + i) % 256

/-- Indices a reply payload may write, by sub-command. -/
def replyIndices (p : List Nat) : List Nat :=
  match p with
  | [] => []
  | p0 :: rest =>
    if p0 = InfoParamResponsePairs then pairIndices rest
    else if p0 = InfoParamResponseSeq then
      match rest with
      | [] => []
      | p1 :: vals => seqIndices p1 vals.length
    else []

/-- All indices mentioned by any reply in a packet list that originates
from the device at `addr`. -/
def mentionedIndices (addr : Addr) (pkts : List Packet) : List Nat :=
  pkts.flatMap fun pkt => if pkt.Source = addr then replyIndices pkt.Payload else []

end Hm

namespace Hm

open BidCoS

/-- Diff loop of `EnsureConfigured`: for each index `i` with
`devmem[i] != target[i]`, append the pair `byte(i), target[i]`. -/
def computePairs (devmem target : List Nat) : List Nat :=
  (List.range devmem.length).flatMap fun i =>
    if devmem.getD i 0 ≠ target.getD i 0 then [i % 256, target.getD i 0] else []

/-- Number of indices at which the loaded memory and the mutated target
differ (the size of the diff `D`). -/
def diffCount (devmem target : List Nat) : Nat :=
  ((List.range devmem.length).filter fun i => devmem.getD i 0 ≠ target.getD i 0).length

/-- Advancing of the per-device message counter by one `count` call (the
stored component of `count`); successive `sd.count()` calls yield
`cnt, step cnt, step (step cnt), …`. -/
def countStep (c : Nat) : Nat :=
  (count c).2

/-- Packet-emitting part of `EnsureConfigured`, after the memory has been
loaded (`devmem`) and the mutator applied (`target`): if the diff is empty
nothing is sent (the transaction is skipped), otherwise a `ConfigStart`,
then `pkts = len(pairs)/14` (+1 on a remainder) `ConfigWriteIndexPairs`
packets — packet `i` carrying `pairs[14*i : 14*i+min(14, rest)]` on
channel byte 0, as in the source — and a `ConfigEnd`.  The `Msgcnt` of
each packet comes from the next `sd.count()` call in program order. -/
def ensureConfiguredPackets (channel paramlist : Nat) (addr : Addr) (cnt : Nat)
    (devmem target : List Nat) : List Packet :=
  let pairs := computePairs devmem target
  if pairs = [] then []
  else
    let pkts := pairs.length / 14 + (if pairs.length % 14 > 0 then 1 else 0)
    configStartPkt cnt channel paramlist addr ::
      ((List.range pkts).map fun i =>
        configWriteIndexPkt (countStep^[i + 1] cnt) 0
          ((pairs.drop (14 * i)).take 14) addr) ++
      [configEndPkt (countStep^[pkts + 1] cnt) channel addr]

/-- Test of whether a packet is a `ConfigWriteIndexPairs` write (payload
byte 1 is the `ConfigWriteIndexPairs` sub-command). -/
def isWritePkt (p : Packet) : Bool :=
  p.Payload.getD 1 0 = BidCoS.ConfigWriteIndexPairs

/-- Key/value bytes carried by a write packet (everything after the
channel and sub-command bytes). -/
def writePktKv (p : Packet) : List Nat :=
  p.Payload.drop 2

/-- Peer-plus-channel pair `hm.FullyQualifiedChannel`. -/
structure FullyQualifiedChannel where
  Peer : Addr
  Channel : Nat
deriving DecidableEq, Repr

/-- Errors of `EnsurePeeredWith`. -/
inductive PeerErr where
  | notImplemented
  | protocolError
  | readError
deriving DecidableEq, Repr

/-- Acknowledgement checks performed after `ConfigPeerRemove` and
`ConfigPeerAdd`: command must equal `wantCmd`, payload must be non-empty
and start with `0x00`. -/
def ackOk (wantCmd : Nat) (pkt : Packet) : Prop :=
  pkt.Cmd = wantCmd ∧ 1 ≤ pkt.Payload.length ∧ pkt.Payload.getD 0 0 = 0x00

instance (wantCmd : Nat) (pkt : Packet) : Decidable (ackOk wantCmd pkt) := by
  unfold ackOk; infer_instance

/-- Reconciliation part of `StandardDevice.EnsurePeeredWith`, after the
peer list has been parsed into `peers`: more than one peer is
unimplemented; a single peer whose 3-byte address equals the desired
peer's address is a no-op; otherwise the existing peer is removed (ack:
cmd `0x10`, status `0x00`) and the desired peer added (ack: cmd `0x02`,
status `0x00`).  `replies` are the packets subsequently read from the
gateway; the result is the list of emitted config packets and the final
per-device message counter. -/
def peerReconcile (channel : Nat) (dest : FullyQualifiedChannel) (addr : Addr)
    (cnt : Nat) (peers : List FullyQualifiedChannel) (replies : List Packet) :
    Except PeerErr (List Packet × Nat) :=
  if peers.length > 1 then .error .notImplemented
  else
    match peers with
    | existing :: _ =>
      if existing.Peer = dest.Peer then .ok ([], cnt)
      else
        let c := count cnt
        let removePkt := configPeerRemovePkt c.1 channel existing.Peer existing.Channel addr
        match replies with
        | [] => .error .readError
        | r1 :: replies' =>
          if r1.Cmd ≠ 0x10 then .error .protocolError
          else if r1.Payload.length < 1 then .error .protocolError
          else if r1.Payload.getD 0 0 ≠ 0x00 then .error .protocolError
          else
            let c2 := count c.2
            let addPkt := configPeerAddPkt c2.1 channel dest.Peer dest.Channel addr
            match replies' with
            | [] => .error .readError
            | r2 :: _ =>
              if r2.Cmd ≠ 0x02 then .error .protocolError
              else if r2.Payload.length < 1 then .error .protocolError
              else if r2.Payload.getD 0 0 ≠ 0x00 then .error .protocolError
              else .ok ([removePkt, addPkt], c2.2)
    | [] =>
      let c := count cnt
      let addPkt := configPeerAddPkt c.1 channel dest.Peer dest.Channel addr
      match replies with
      | [] => .error .readError
      | r2 :: _ =>
        if r2.Cmd ≠ 0x02 then .error .protocolError
        else if r2.Payload.length < 1 then .error .protocolError
        else if r2.Payload.getD 0 0 ≠ 0x00 then .error .protocolError
        else .ok ([addPkt], c.2)

end Hm

namespace Heating

/-- Heating-thermostat info event, with the temperature and voltage fields
modelled as exact rationals (`hmgo` uses `float64`). -/
structure InfoEvent where
  SetTemperature : ℚ
  ActualTemperature : ℚ
  Fault : Nat
  BatteryState : ℚ
  ValveState : Nat
  Control : Nat
  BoostState : Nat
deriving DecidableEq, Repr

/-- Decoding of `Thermostat.DecodeInfoEvent` (heating valve): payload must
be exactly 6 bytes.  Note that the source computes the actual temperature
as `(payload[1] & 0x03) | payload[2]` with no left shift of the masked
high bits. -/
def DecodeInfoEvent (payload : List Nat) : Option InfoEvent :=
  if payload.length = 6 then
    some
      { SetTemperature := ((payload.getD 1 0 >>> 2) &&& 0x3F : Nat) / 2
        ActualTemperature := ((payload.getD 1 0 &&& 0x3) ||| payload.getD 2 0 : Nat) / 10
        Fault := (payload.getD 3 0 >>> 5) &&& 0x7
        BatteryState := ((payload.getD 3 0 &&& 0x1F : Nat) : ℚ) / 10 + 3 / 2
        ValveState := payload.getD 4 0 &&& 0x7F
        Control := (payload.getD 5 0 >>> 6) &&& 0x3
        BoostState := payload.getD 5 0 &&& 0x3F }
  else
    none

/-- Actual-temperature formula as the specification words it:
`((p1 & 0x03) << 8 | p2) / 10`. -/
def specActualTemperature (p1 p2 : Nat) : ℚ :=
  (((p1 &&& 0x3) <<< 8) ||| p2 : Nat) / 10

end Heating

namespace Thermal

/-- Wall-thermostat weather event (temperature as exact rational). -/
structure WeatherEvent where
  Temperature : ℚ
  Humidity : Nat
deriving DecidableEq, Repr

/-- Decoding of `ThermalControl.DecodeWeatherEvent`: payload must be
exactly 3 bytes.  The source computes
`(int16(p0)<<8 | int16(p1)) & 0x3FFF`: for byte inputs the `int16` bit
pattern of the shift/or is `p0<<8 | p1`, and masking with `0x3FFF` leaves
a non-negative value, so the result equals the 14-bit unsigned field. -/
def DecodeWeatherEvent (payload : List Nat) : Option WeatherEvent :=
  if payload.length = 3 then
    some
      { Temperature :=
          ((((payload.getD 0 0 <<< 8) ||| payload.getD 1 0) % 65536) &&& 0x3FFF : Nat) / 10
        Humidity := payload.getD 2 0 }
  else
    none

/-- Schedule entry: end time in minutes and temperature in degC
(`float64` in the source, exact rational here). -/
structure ProgramEntry where
  Endtime : Nat
  Temperature : ℚ
deriving DecidableEq, Repr

/-- Weekly program: a day mask (bit `d` for Go weekday `d`, Sunday = 0)
and the 13 schedule entries.  The Go field is a `[13]ProgramEntry` array;
the embedding reads exactly 13 entries, missing ones defaulting to the Go
zero value. -/
structure Program where
  DayMask : Nat
  Endtimes : List ProgramEntry
deriving DecidableEq, Repr

/-- Conversion `uint16(temperature * 2.0)` of a Go float: doubling a
float is exact, so truncation toward zero of `temperature * 2` is
`(2 * num) tdiv den`, reduced modulo 2^16 (a negative or out-of-range
temperature is not exercised by any schedule). -/
def toUint16Double (q : ℚ) : Nat :=
  ((2 * q.num).tdiv q.den).toNat % 65536

/-- Encoding of one schedule entry by `encodeProgramDay`: a zero end time
defaults to 1440 minutes and a zero temperature to 17 degC;
`e5 = uint16(endtime/5)` and `t2 = uint16(temperature*2)` are packed as
`byte(((e5 & 0x0100) >> 8) | ((t2 & 0x3F) << 1))` and `byte(e5 & 0x00FF)`. -/
def encodeEntry (e : ProgramEntry) : List Nat :=
  let endtime := if e.Endtime = 0 then 1440 else e.Endtime
  let temperature := if e.Temperature = 0 then (17 : ℚ) else e.Temperature
  let e5 := (endtime / 5) % 65536
  let t2 := toUint16Double temperature
  [(((e5 &&& 0x0100) >>> 8) ||| ((t2 &&& 0x3F) <<< 1)) % 256,
   (e5 &&& 0x00FF) % 256]

/-- Encoding of `ThermalControl.encodeProgramDay`: 13 entries, 2 bytes
each, 26 bytes total. -/
def encodeProgramDay (entries : List ProgramEntry) : List Nat :=
  (List.range 13).flatMap fun i => encodeEntry (entries.getD i ⟨0, 0⟩)

/-- Day-slot offsets `programOffsets` inside parameter memory, indexed by
the Go weekday number (Sunday = 0 … Saturday = 6). -/
def programOffset (day : Nat) : Nat :=
  if day = 6 then 20
  else if day = 0 then 46
  else if day = 1 then 72
  else if day = 2 then 98
  else if day = 3 then 124
  else if day = 4 then 150
  else 176

/-- Go `copy(mem[off:], src)` on byte slices: overwrites
`min(len(src), len(mem)-off)` bytes of `mem` starting at `off`. -/
def listCopy (mem : List Nat) (off : Nat) (src : List Nat) : List Nat :=
  mem.take off ++ src.take (mem.length - off) ++ mem.drop (off + src.length)

/-- Inner loop of `SetPrograms` for one weekday: every program whose
`DayMask` has the day's bit set is copied to the day's offset, in list
order (the source has no early exit, so a later match overwrites an
earlier one). -/
def setProgramsDay (mem : List Nat) (programs : List Program) (day : Nat) : List Nat :=
  programs.foldl
    (fun m pg =>
      if (1 <<< day) &&& pg.DayMask ≠ 0 then
        listCopy m (programOffset day) (encodeProgramDay pg.Endtimes)
      else m)
    mem

/-- Iteration order of the weekday loop in `SetPrograms`:
Saturday, Sunday, Monday, …, Friday (Go weekday numbers). -/
def setProgramsDays : List Nat := [6, 0, 1, 2, 3, 4, 5]

/-- Embedding of `ThermalControl.SetPrograms`. -/
def SetPrograms (mem : List Nat) (programs : List Program) : List Nat :=
  setProgramsDays.foldl (fun m day => setProgramsDay m programs day) mem

/-- The 26-byte day slot of `mem` at offset `off`. -/
def daySlice (mem : List Nat) (off : Nat) : List Nat :=
  (mem.drop off).take 26

/-- Programs in `programs` whose `DayMask` has the bit of `day` set. -/
def matchingPrograms (programs : List Program) (day : Nat) : List Program :=
  programs.filter fun pg => (1 <<< day) &&& pg.DayMask ≠ 0

end Thermal

section EscapeRoundTrip

open Uartgw

/-- Unescaping distributes over one escaped unit followed by a rest. -/
theorem unescapeGo_escapeOne (x : Nat) (rest : List Nat) :
    unescapeGo false (escapeOne x ++ rest) = x :: unescapeGo false rest := by
  by_cases h : x = 0xfd ∨ x = 0xfc
  · have h1 : (253 : Nat) &&& 127 = 125 := by decide
    have h2 : (252 : Nat) &&& 127 = 124 := by decide
    rcases h with h | h <;> subst h <;>
      simp [escapeOne, unescapeGo, h1, h2]
  · have hx1 : x ≠ 0xfd := fun hc => h (Or.inl hc)
    have hx2 : x ≠ 0xfc := fun hc => h (Or.inr hc)
    simp [escapeOne, hx1, hx2, unescapeGo]

/-- C2: for every byte sequence `b`, unescaping the escaped form of `b`
yields `b` again: the escaping writer replaces each occurrence of `0xfd`
or `0xfc` by the two bytes `0xfc, b & 0x7f` (which, those bytes having
bit 7 set, equals `b XOR 0x80`) and the unescaping reader inverts this,
so `unescape (escape b) = b`. -/
theorem unescape_escape (b : List Nat) : unescape (escape b) = b := by
  induction b with
  | nil => rfl
  | cons x xs ih =>
    have : escape (x :: xs) = escapeOne x ++ escape xs := by
      simp [escape]
    rw [unescape, this, unescapeGo_escapeOne]
    exact congrArg (x :: ·) ih

end EscapeRoundTrip

section CounterStride

open BidCoS

/-- C5: every encode of a packet whose `Msgcnt` is 0 advances the global
rolling message counter by exactly 9 modulo 256, and every use of the
per-device counter `StandardDevice.count` returns the current value and
advances the stored counter by exactly 9 modulo 256. -/
theorem counter_stride (p : Packet) (c : Nat) (h : p.Msgcnt = 0) :
    (p.Encode c).2 = (c + 9) % 256 ∧ Hm.count c = (c, (c + 9) % 256) := by
  constructor
  · simp [Packet.Encode, h]
  · rfl

/-- Witness: the stride theorem applied to a concrete packet and counter. -/
theorem counter_stride_witness :
    (Packet.Encode { Msgcnt := 0 } 7).2 = 16 ∧ Hm.count 7 = (7, 16) := by
  have h := counter_stride { Msgcnt := 0 } 7 rfl
  refine ⟨h.1.trans (by decide), h.2.trans (by decide)⟩

end CounterStride

section EncodeDecode

open BidCoS

/-- Counterexample to C1 as stated: for a packet with `Msgcnt = 0` encoded
while the rolling counter holds 9, the decoded packet has `Msgcnt = 9`,
not the original 0, so `Decode (Encode p)` does not equal `p` in `Msgcnt`. -/
theorem encode_decode_msgcnt_counterexample :
    (Option.map Packet.Msgcnt
        (Decode (Packet.Encode { Msgcnt := 0, Cmd := 0x10 } 9).1)) = some 9 ∧
      ({ Msgcnt := 0, Cmd := 0x10 } : Packet).Msgcnt = 0 := by
  constructor
  · rfl
  · rfl

/-- C1 (amended): for every packet `p` with payload of at most 17 bytes
and every rolling-counter value `c`, `Decode (Encode p)` succeeds and
returns a packet equal to `p` in `Flags`, `Cmd`, `Source`, `Dest` and
`Payload`; it equals `p` in `Msgcnt` whenever `p.Msgcnt ≠ 0`, while for
`p.Msgcnt = 0` the decoded `Msgcnt` is the rolling counter value `c`
substituted by the encoder; the three leading status bytes are set to
`00`, `00` and `burst`, where `burst = 1` iff `p.Flags` has the Burst bit
(0x10) set. -/
theorem encode_decode (p : Packet) (c : Nat) (_hp : p.Payload.length ≤ 17) :
    Decode (p.Encode c).1 =
      some { p with
              status := 0
              info := 0
              rssi := if p.Flags &&& 0x10 = 0x10 then 1 else 0
              Msgcnt := if p.Msgcnt = 0 then c else p.Msgcnt } := by
  simp only [Packet.Encode, Decode]
  rw [if_neg (by simp)]
  simp [List.getD]

/-- Witness: the round-trip theorem applied to a concrete packet. -/
theorem encode_decode_witness :
    Decode (Packet.Encode
        { Msgcnt := 5, Flags := 0xB0, Cmd := 0x11, Source := ⟨1, 2, 3⟩,
          Dest := ⟨4, 5, 6⟩, Payload := [0x02, 0x01, 0xc8, 0x00, 0x00] } 9).1 =
      some { status := 0, info := 0, rssi := 1, Msgcnt := 5, Flags := 0xB0,
             Cmd := 0x11, Source := ⟨1, 2, 3⟩, Dest := ⟨4, 5, 6⟩,
             Payload := [0x02, 0x01, 0xc8, 0x00, 0x00] } := by
  have h := encode_decode
    { Msgcnt := 5, Flags := 0xB0, Cmd := 0x11, Source := ⟨1, 2, 3⟩,
      Dest := ⟨4, 5, 6⟩, Payload := [0x02, 0x01, 0xc8, 0x00, 0x00] } 9
    (by decide)
  rw [h]
  decide

end EncodeDecode

section EventDecoders

/-- C8: the heating thermostat's actual temperature decodes the repo's own
test vector `0a b0 e2 08 00 00` to 22.6 degC (where `p1 & 0x03 = 0`), but
on the failing input `0a b1 e2 08 00 00` (where `p1 & 0x03 = 1`) the code
computes `((p1 & 0x03) | p2) / 10 = 22.7` with no left shift, while the
specified formula `((p1 & 0x03) << 8 | p2) / 10` gives 48.2. -/
theorem heating_actual_temperature_divergence :
    Option.map Heating.InfoEvent.ActualTemperature
        (Heating.DecodeInfoEvent [0x0a, 0xb0, 0xe2, 0x08, 0x00, 0x00]) =
      some (226 / 10 : ℚ) ∧
    Option.map Heating.InfoEvent.ActualTemperature
        (Heating.DecodeInfoEvent [0x0a, 0xb1, 0xe2, 0x08, 0x00, 0x00]) =
      some (227 / 10 : ℚ) ∧
    Heating.specActualTemperature 0xb1 0xe2 = 482 / 10 ∧
    (227 / 10 : ℚ) ≠ 482 / 10 := by
  refine ⟨?_, ?_, ?_, by norm_num⟩
  · simp [Heating.DecodeInfoEvent, List.getD,
      show (176 &&& 3 ||| 226 : Nat) = 226 from by decide]
  · simp [Heating.DecodeInfoEvent, List.getD,
      show (177 &&& 3 ||| 226 : Nat) = 227 from by decide]
  · simp [Heating.specActualTemperature,
      show ((177 &&& 3) <<< 8 ||| 226 : Nat) = 482 from by decide]

/-- Counterexample to C9 as stated: on the payload `20 00 39` the 14-bit
temperature field is `0x2000`, whose bit 13 is set, yet the decoder
returns the non-negative 819.2 degC rather than a negative temperature. -/
theorem weather_event_sign_counterexample :
    Option.map Thermal.WeatherEvent.Temperature
        (Thermal.DecodeWeatherEvent [0x20, 0x00, 0x39]) = some (8192 / 10 : ℚ) ∧
    Nat.testBit 0x2000 13 = true ∧
    ¬ ((8192 / 10 : ℚ) < 0) := by
  refine ⟨?_, by decide, by norm_num⟩
  simp [Thermal.DecodeWeatherEvent, List.getD,
    show (8192 &&& 16383 : Nat) = 8192 from by decide]

/-- C9 (amended): for every 3-byte payload, `DecodeWeatherEvent` returns
`Temperature = ((p0<<8 | p1) & 0x3FFF) / 10` read as an unsigned 14-bit
quantity — the masking with `0x3FFF` on the `int16` bit pattern always
leaves a non-negative value, so the returned temperature is never
negative, also when bit 13 of the field is set. -/
theorem weather_event_unsigned (p0 p1 p2 : Nat) :
    ∃ we, Thermal.DecodeWeatherEvent [p0, p1, p2] = some we ∧
      we.Temperature = ((((p0 <<< 8) ||| p1) % 65536) &&& 0x3FFF : Nat) / 10 ∧
      0 ≤ we.Temperature ∧ we.Humidity = p2 := by
  refine ⟨_, rfl, rfl, ?_, rfl⟩
  positivity

end EventDecoders

section LoadConfigPanic

open Hm

/-- C10: a reply from the device whose payload starts with the
`InfoParamResponsePairs` sub-command but carries an odd number of bytes
after it (here the single byte `0x05`) makes `LoadConfig` index past the
end of the payload slice — a Go runtime panic that crashes the process —
instead of returning a `ProtocolError`. -/
theorem loadconfig_malformed_pairs_panic :
    loadConfigLoop ⟨0xaa, 0xbb, 0xcc⟩ (List.replicate 256 0)
        [{ Source := ⟨0xaa, 0xbb, 0xcc⟩, Payload := [0x02, 0x05] }] =
      .error CfgErr.outOfRange ∧
    CfgErr.outOfRange ≠ CfgErr.protocolError := by
  refine ⟨rfl, by decide⟩

end LoadConfigPanic

section EnsureConfigured

open BidCoS Hm

/-- A `ConfigStart` packet is not a `ConfigWriteIndexPairs` write. -/
theorem isWritePkt_start (cnt channel paramlist : Nat) (addr : Addr) :
    isWritePkt (configStartPkt cnt channel paramlist addr) = false := rfl

/-- A `ConfigEnd` packet is not a `ConfigWriteIndexPairs` write. -/
theorem isWritePkt_end (cnt channel : Nat) (addr : Addr) :
    isWritePkt (configEndPkt cnt channel addr) = false := rfl

/-- A `ConfigWriteIndex` packet is a `ConfigWriteIndexPairs` write. -/
theorem isWritePkt_write (cnt channel : Nat) (kv : List Nat) (addr : Addr) :
    isWritePkt (configWriteIndexPkt cnt channel kv addr) = true := rfl

/-- The key/value bytes of a `ConfigWriteIndex` packet are its `kv`. -/
theorem writePktKv_write (cnt channel : Nat) (kv : List Nat) (addr : Addr) :
    writePktKv (configWriteIndexPkt cnt channel kv addr) = kv := rfl

/-- Each differing index contributes exactly one (index, value) pair, two
bytes, to the diff byte list. -/
theorem computePairs_length (devmem target : List Nat) :
    (computePairs devmem target).length = 2 * diffCount devmem target := by
  unfold computePairs diffCount
  induction List.range devmem.length with
  | nil => rfl
  | cons x xs ih =>
    by_cases h : devmem.getD x 0 ≠ target.getD x 0
    · rw [List.flatMap_cons, if_pos h, List.filter_cons_of_pos (by simpa using h)]
      simp only [List.length_append, List.length_cons, List.length_nil]
      omega
    · rw [List.flatMap_cons, if_neg h, List.filter_cons_of_neg (by simpa using h)]
      simpa using ih

/-- Diffing a memory against itself yields no pairs. -/
theorem computePairs_self (devmem : List Nat) : computePairs devmem devmem = [] := by
  unfold computePairs
  induction List.range devmem.length with
  | nil => rfl
  | cons x xs ih => simp [ih]

/-- C4 (amended): each emitted `ConfigWriteIndexPairs` packet carries at
most 7 key/value pairs (14 bytes) — the 16-byte BidCoS payload cap minus
2 bytes of sub-command overhead — and for any diff `D` between the loaded
memory and the mutated target the number of `ConfigWriteIndexPairs`
packets emitted equals `ceil(|D| / 7)`; when the mutator is the identity
(empty diff) no packets at all are emitted: the
`ConfigStart`/`ConfigWriteIndexPairs`/`ConfigEnd` transaction is skipped
entirely. -/
theorem ensure_configured_chunks (channel paramlist : Nat) (addr : Addr)
    (cnt : Nat) (devmem target : List Nat) :
    ((ensureConfiguredPackets channel paramlist addr cnt devmem target).filter
        isWritePkt).length = (diffCount devmem target + 6) / 7 ∧
    (∀ pkt ∈ ensureConfiguredPackets channel paramlist addr cnt devmem target,
        isWritePkt pkt → (writePktKv pkt).length ≤ 14) ∧
    (target = devmem →
        ensureConfiguredPackets channel paramlist addr cnt devmem target = []) := by
  have hlen := computePairs_length devmem target
  refine ⟨?_, ?_, ?_⟩
  · by_cases hnil : computePairs devmem target = []
    · have hd : diffCount devmem target = 0 := by
        rw [hnil] at hlen
        simpa using hlen.symm
      simp [ensureConfiguredPackets, hnil, hd]
    · simp only [ensureConfiguredPackets, if_neg hnil]
      have hmap : ∀ (n : Nat),
          List.filter isWritePkt
            ((List.range n).map fun i =>
              configWriteIndexPkt (countStep^[i + 1] cnt) 0
                ((List.drop (14 * i) (computePairs devmem target)).take 14) addr) =
            (List.range n).map fun i =>
              configWriteIndexPkt (countStep^[i + 1] cnt) 0
                ((List.drop (14 * i) (computePairs devmem target)).take 14) addr := by
        intro n
        refine List.filter_eq_self.mpr ?_
        intro a ha
        obtain ⟨i, _, rfl⟩ := List.mem_map.mp ha
        exact isWritePkt_write _ _ _ _
      simp only [List.filter_cons, List.filter_append, List.filter_nil,
        isWritePkt_start, isWritePkt_end, hmap, Bool.false_eq_true, if_false,
        List.append_nil, List.length_map, List.length_range]
      by_cases h14 : (computePairs devmem target).length % 14 > 0 <;>
        simp only [h14, reduceIte, if_true, if_false] <;> omega
  · intro pkt hmem hw
    by_cases hnil : computePairs devmem target = []
    · simp [ensureConfiguredPackets, hnil] at hmem
    · simp only [ensureConfiguredPackets, if_neg hnil] at hmem
      rcases List.mem_cons.mp hmem with rfl | hmem'
      · rw [isWritePkt_start] at hw
        cases hw
      · rcases List.mem_append.mp hmem' with hmem'' | hmem''
        · obtain ⟨i, _, rfl⟩ := List.mem_map.mp hmem''
          rw [writePktKv_write, List.length_take]
          exact min_le_left _ _
        · have heq := List.mem_singleton.mp hmem''
          subst heq
          rw [isWritePkt_end] at hw
          cases hw
  · intro htg
    subst htg
    simp [ensureConfiguredPackets, computePairs_self]

/-- Witness: with an identical loaded memory and target (empty diff) the
chunking theorem yields zero write packets and an empty emission. -/
theorem ensure_configured_chunks_witness :
    ensureConfiguredPackets 3 7 ⟨1, 2, 3⟩ 0 [5, 5] [5, 5] = [] :=
  (ensure_configured_chunks 3 7 ⟨1, 2, 3⟩ 0 [5, 5] [5, 5]).2.2 rfl

/-- Counterexample to C4 as stated: with a 256-byte loaded memory and a
target differing in 8 positions, the code emits 2 `ConfigWriteIndexPairs`
packets (blocks of 14 bytes = 7 pairs), not `ceil(8/14) = 1`. -/
theorem ensure_configured_count_counterexample :
    diffCount (List.replicate 256 0) (List.replicate 8 1 ++ List.replicate 248 0) = 8 ∧
    ((ensureConfiguredPackets 1 7 ⟨1, 2, 3⟩ 0 (List.replicate 256 0)
        (List.replicate 8 1 ++ List.replicate 248 0)).filter isWritePkt).length = 2 ∧
    (8 + 13) / 14 = 1 ∧ (2 : Nat) ≠ 1 := by
  refine ⟨by decide, by decide, by decide, by decide⟩

end EnsureConfigured

section Peering

open BidCoS Hm

/-- Counterexample to C7 as stated: with exactly one existing peer whose
address equals the desired peer's address but whose channel differs, the
desired `FullyQualifiedChannel` differs from the existing one, yet the
reconciliation is a no-op — no `ConfigPeerRemove` or `ConfigPeerAdd` is
emitted (the source compares only the 3-byte peer address). -/
theorem peer_reconcile_channel_ignored :
    peerReconcile 1 ⟨⟨0xaa, 0xbb, 0xcc⟩, 2⟩ ⟨0x11, 0x22, 0x33⟩ 0
        [⟨⟨0xaa, 0xbb, 0xcc⟩, 1⟩] [] = .ok ([], 0) ∧
    (⟨⟨0xaa, 0xbb, 0xcc⟩, 1⟩ : FullyQualifiedChannel) ≠ ⟨⟨0xaa, 0xbb, 0xcc⟩, 2⟩ := by
  refine ⟨rfl, by decide⟩

/-- C7 (amended): in `EnsurePeeredWith`, when the parsed peer list
contains exactly one peer: if that peer's 3-byte address matches the
desired peer's address the operation is a no-op (the channel byte is not
compared; no `ConfigPeerRemove` or `ConfigPeerAdd` is sent); if the
addresses differ, a `ConfigPeerRemove` for the existing peer is sent and
the reply must have `cmd = 0x10` and `payload[0] = 0x00`, followed by a
`ConfigPeerAdd` for the desired peer whose reply must have `cmd = 0x02`
and `payload[0] = 0x00`, any mismatch (or missing reply) producing an
error. -/
theorem peer_reconcile_single (channel : Nat) (dest existing : FullyQualifiedChannel)
    (addr : Addr) (cnt : Nat) (replies : List Packet) :
    (existing.Peer = dest.Peer →
      peerReconcile channel dest addr cnt [existing] replies = .ok ([], cnt)) ∧
    (existing.Peer ≠ dest.Peer →
      (∀ r1 r2 rest, replies = r1 :: r2 :: rest → ackOk 0x10 r1 → ackOk 0x02 r2 →
        peerReconcile channel dest addr cnt [existing] replies =
          .ok ([configPeerRemovePkt cnt channel existing.Peer existing.Channel addr,
                configPeerAddPkt ((cnt + 9) % 256) channel dest.Peer dest.Channel addr],
              ((cnt + 9) % 256 + 9) % 256)) ∧
      ((¬ ∃ r1 r2 rest, replies = r1 :: r2 :: rest ∧ ackOk 0x10 r1 ∧ ackOk 0x02 r2) →
        ∃ e, peerReconcile channel dest addr cnt [existing] replies = .error e)) := by
  constructor
  · intro hpeer
    simp [peerReconcile, hpeer]
  · intro hpeer
    constructor
    · rintro r1 r2 rest rfl ⟨hc1, hl1, hp1⟩ ⟨hc2, hl2, hp2⟩
      obtain ⟨a1, as1, hr1⟩ := List.exists_cons_of_ne_nil
        (show r1.Payload ≠ [] by intro h; rw [h] at hl1; simp at hl1)
      obtain ⟨a2, as2, hr2⟩ := List.exists_cons_of_ne_nil
        (show r2.Payload ≠ [] by intro h; rw [h] at hl2; simp at hl2)
      rw [hr1] at hp1
      rw [hr2] at hp2
      simp only [List.getD_cons_zero] at hp1 hp2
      simp [peerReconcile, hpeer, hc1, hc2, hr1, hr2, hp1, hp2, count]
    · intro hno
      match replies with
      | [] => exact ⟨.readError, by simp [peerReconcile, hpeer]⟩
      | r1 :: rest1 =>
        by_cases hc1 : r1.Cmd = 0x10
        · rcases hr1 : r1.Payload with _ | ⟨a1, as1⟩
          · exact ⟨.protocolError, by simp [peerReconcile, hpeer, hc1, hr1]⟩
          · by_cases hp1 : a1 = 0x00
            · match rest1 with
              | [] =>
                exact ⟨.readError, by
                  simp [peerReconcile, hpeer, hc1, hr1, hp1]⟩
              | r2 :: rest2 =>
                have hack1 : ackOk 0x10 r1 := ⟨hc1, by rw [hr1]; simp, by rw [hr1]; simpa⟩
                by_cases hc2 : r2.Cmd = 0x02
                · rcases hr2 : r2.Payload with _ | ⟨a2, as2⟩
                  · exact ⟨.protocolError, by
                      simp [peerReconcile, hpeer, hc1, hr1, hp1, hc2, hr2]⟩
                  · by_cases hp2 : a2 = 0x00
                    · have hack2 : ackOk 0x02 r2 :=
                        ⟨hc2, by rw [hr2]; simp, by rw [hr2]; simpa⟩
                      exact absurd ⟨r1, r2, rest2, rfl, hack1, hack2⟩ hno
                    · exact ⟨.protocolError, by
                        simp [peerReconcile, hpeer, hc1, hr1, hp1, hc2, hr2, hp2]⟩
                · exact ⟨.protocolError, by
                    simp [peerReconcile, hpeer, hc1, hr1, hp1, hc2]⟩
            · exact ⟨.protocolError, by
                simp [peerReconcile, hpeer, hc1, hr1, hp1]⟩
        · exact ⟨.protocolError, by simp [peerReconcile, hpeer, hc1]⟩

/-- Witness: the single-peer reconciliation theorem applied to a concrete
differing peer with well-formed acknowledgements. -/
theorem peer_reconcile_single_witness :
    peerReconcile 1 ⟨⟨4, 5, 6⟩, 2⟩ ⟨7, 8, 9⟩ 0 [⟨⟨1, 2, 3⟩, 1⟩]
        [{ Cmd := 0x10, Payload := [0x00] }, { Cmd := 0x02, Payload := [0x00] }] =
      .ok ([configPeerRemovePkt 0 1 ⟨1, 2, 3⟩ 1 ⟨7, 8, 9⟩,
            configPeerAddPkt 9 1 ⟨4, 5, 6⟩ 2 ⟨7, 8, 9⟩], 18) := by
  have h := (peer_reconcile_single 1 ⟨⟨4, 5, 6⟩, 2⟩ ⟨⟨1, 2, 3⟩, 1⟩ ⟨7, 8, 9⟩ 0
      [{ Cmd := 0x10, Payload := [0x00] }, { Cmd := 0x02, Payload := [0x00] }]).2
      (by decide)
  have h2 := h.1 { Cmd := 0x10, Payload := [0x00] } { Cmd := 0x02, Payload := [0x00] }
    [] rfl ⟨rfl, by decide, rfl⟩ ⟨rfl, by decide, rfl⟩
  rw [h2]

end Peering

section LoadConfigFrame

open BidCoS Hm

/-- Frame property of the pairs-writing loop: indices not named by any
complete (index, value) pair keep their value. -/
theorem pairsLoop_frame : ∀ (rest mem mem' : List Nat),
    pairsLoop mem rest = .ok mem' → ∀ j, j ∉ pairIndices rest → mem'[j]? = mem[j]?
  | [], mem, mem', h, j, _ => by
    simp only [pairsLoop, Except.ok.injEq] at h
    rw [h]
  | [x], mem, mem', h, j, _ => by
    simp [pairsLoop] at h
  | idx :: val :: rest', mem, mem', h, j, hj => by
    have hj1 : j ≠ idx := fun hh => hj (by simp [pairIndices, hh])
    have hj2 : j ∉ pairIndices rest' := fun hh => hj (by simp [pairIndices, hh])
    have hrec := pairsLoop_frame rest' (mem.set idx val) mem'
      (by simpa [pairsLoop] using h) j hj2
    rw [hrec, List.getElem?_set_ne (fun hh => hj1 hh.symm)]

/-- Frame property of the sequential-run loop: indices outside the
(wrapped) run keep their value. -/
theorem seqLoop_frame : ∀ (vals : List Nat) (start i : Nat) (mem : List Nat) (j : Nat),
    (∀ k, k < vals.length → j ≠ (start + i + k) % 256) →
    (seqLoop mem start i vals)[j]? = mem[j]?
  | [], _, _, _, _, _ => rfl
  | v :: vs, start, i, mem, j, hk => by
    have h0 : j ≠ (start + i) % 256 := by simpa using hk 0 (by simp)
    have hrec := seqLoop_frame vs start (i + 1) (mem.set ((start + i) % 256) v) j
      (fun k hk' => by
        have hx := hk (k + 1) (by simpa using Nat.succ_lt_succ hk')
        have harith : start + i + (k + 1) = start + (i + 1) + k := by omega
        rw [harith] at hx
        exact hx)
    rw [seqLoop, hrec, List.getElem?_set_ne (fun hh => h0 hh.symm)]

/-- Frame property of one reply: only the indices in `replyIndices` can
change. -/
theorem processReply_frame (mem p mem' : List Nat) (fin : Bool)
    (h : processReply mem p = .ok (mem', fin)) :
    ∀ j, j ∉ replyIndices p → mem'[j]? = mem[j]? := by
  intro j hj
  match p with
  | [] => simp [processReply] at h
  | p0 :: rest =>
    by_cases hp0 : p0 = InfoParamResponsePairs
    · by_cases hs : rest = [0x00, 0x00]
      · simp only [processReply, hp0, if_pos, hs, reduceIte, Except.ok.injEq,
          Prod.mk.injEq] at h
        rw [h.1]
      · simp only [replyIndices] at hj
        rw [if_pos hp0] at hj
        simp only [processReply, hp0, reduceIte, hs] at h
        cases heq : pairsLoop mem rest with
        | error e => rw [heq] at h; cases h
        | ok m2 =>
          rw [heq] at h
          simp only [Except.ok.injEq, Prod.mk.injEq] at h
          rw [← h.1]
          exact pairsLoop_frame rest mem m2 heq j hj
    · by_cases hseq : p0 = InfoParamResponseSeq
      · match rest with
        | [] =>
          have hpp : (InfoParamResponseSeq : Nat) ≠ InfoParamResponsePairs := by decide
          rw [hseq] at h
          simp [processReply, hpp] at h
        | p1 :: vals =>
          simp only [replyIndices] at hj
          rw [if_neg hp0, if_pos hseq] at hj
          by_cases hz : p1 = 0x00
          · rw [hseq] at h
            have hpp : (InfoParamResponseSeq : Nat) ≠ InfoParamResponsePairs := by decide
            simp only [processReply, hpp, reduceIte, hz, Except.ok.injEq,
              Prod.mk.injEq] at h
            rw [h.1]
          · rw [hseq] at h
            have hpp : (InfoParamResponseSeq : Nat) ≠ InfoParamResponsePairs := by decide
            simp only [processReply, hpp, reduceIte, hz, Except.ok.injEq,
              Prod.mk.injEq] at h
            rw [← h.1]
            refine seqLoop_frame vals p1 0 mem j ?_
            intro k hk hjk
            refine hj ?_
            rw [seqIndices]
            refine List.mem_map.mpr ⟨k, List.mem_range.mpr hk, ?_⟩
            rw [hjk]
            simp
      · simp [processReply, hp0, hseq] at h

/-- C3: for every initial parameter memory and every sequence of device
replies processed by `LoadConfig`, after `LoadConfig` returns
successfully, every index that was not named in any
`InfoParamResponsePairs` (index, value) pair and not covered by any
`InfoParamResponseSeq` run still holds its prior value (zero on first
read, since `EnsureConfigured` passes a zeroed memory); only positions
explicitly reported by the device are modified. -/
theorem load_config_frame : ∀ (pkts : List Packet) (addr : Addr) (mem mem' : List Nat),
    loadConfigLoop addr mem pkts = .ok mem' →
    ∀ j, j ∉ mentionedIndices addr pkts → mem'[j]? = mem[j]?
  | [], addr, mem, mem', h => by simp [loadConfigLoop] at h
  | pkt :: rest, addr, mem, mem', h => by
    intro j hj
    have hjsplit : (pkt.Source = addr → j ∉ replyIndices pkt.Payload) ∧
        j ∉ mentionedIndices addr rest := by
      constructor
      · intro hsrc hmem
        exact hj (by simp [mentionedIndices, List.flatMap_cons, hsrc, hmem])
      · intro hmem
        refine hj ?_
        simp only [mentionedIndices, List.flatMap_cons, List.mem_append]
        exact Or.inr (by simpa [mentionedIndices] using hmem)
    by_cases hsrc : pkt.Source = addr
    · rw [loadConfigLoop, if_pos hsrc] at h
      cases heq : processReply mem pkt.Payload with
      | error e => rw [heq] at h; cases h
      | ok r =>
        rw [heq] at h
        match r, heq with
        | (m2, true), heq =>
          simp only [Except.ok.injEq] at h
          rw [← h]
          exact processReply_frame mem pkt.Payload m2 true heq j (hjsplit.1 hsrc)
        | (m2, false), heq =>
          have hrec := load_config_frame rest addr m2 mem' h j hjsplit.2
          rw [hrec]
          exact processReply_frame mem pkt.Payload m2 false heq j (hjsplit.1 hsrc)
    · rw [loadConfigLoop, if_neg hsrc] at h
      exact load_config_frame rest addr mem mem' h j hjsplit.2

/-- Witness: a run with one pairs reply writing index 5 and the sentinel
reply leaves index 9 (unmentioned) at its initial zero. -/
theorem load_config_frame_witness :
    ((List.replicate 256 0).set 5 7)[9]? = (List.replicate 256 (0 : Nat))[9]? := by
  refine load_config_frame
    [{ Source := ⟨0xaa, 0xbb, 0xcc⟩, Payload := [0x02, 0x05, 0x07] },
     { Source := ⟨0xaa, 0xbb, 0xcc⟩, Payload := [0x02, 0x00, 0x00] }]
    ⟨0xaa, 0xbb, 0xcc⟩ (List.replicate 256 0) ((List.replicate 256 0).set 5 7)
    rfl 9 (by decide)

end LoadConfigFrame

section SetProgramsProofs

open Thermal

/-- Encoding of a day is always 26 bytes (13 entries of 2 bytes). -/
theorem encodeProgramDay_length (entries : List ProgramEntry) :
    (encodeProgramDay entries).length = 26 := by
  unfold encodeProgramDay
  have h : ∀ l : List Nat,
      (l.flatMap fun i => encodeEntry (entries.getD i ⟨0, 0⟩)).length = 2 * l.length := by
    intro l
    induction l with
    | nil => rfl
    | cons x xs ih =>
      rw [List.flatMap_cons, List.length_append, ih,
        show (encodeEntry (entries.getD x ⟨0, 0⟩)).length = 2 from rfl,
        List.length_cons]
      omega
  rw [h]
  simp

/-- Copying into a slice never changes the memory length. -/
theorem listCopy_length (mem src : List Nat) (off : Nat) :
    (listCopy mem off src).length = mem.length := by
  simp [listCopy, List.length_take, List.length_drop]
  omega

/-- Copying at an offset past the end of the memory copies nothing. -/
theorem listCopy_of_length_lt (mem src : List Nat) (off : Nat)
    (h : mem.length < off) : listCopy mem off src = mem := by
  unfold listCopy
  rw [List.take_of_length_le (by omega), Nat.sub_eq_zero_of_le (by omega),
    List.take_zero, List.drop_eq_nil_of_le (by omega)]
  simp

/-- Copying twice to the same offset with equal-length sources keeps only
the second copy. -/
theorem listCopy_absorb (mem a b : List Nat) (off : Nat) (hab : a.length = b.length) :
    listCopy (listCopy mem off a) off b = listCopy mem off b := by
  by_cases hoff : off ≤ mem.length
  · have hL := listCopy_length mem a off
    have htake : (listCopy mem off a).take off = mem.take off := by
      unfold listCopy
      rw [List.append_assoc, List.take_left' (by rw [List.length_take]; omega)]
    have hdrop : (listCopy mem off a).drop (off + b.length) = mem.drop (off + a.length) := by
      unfold listCopy
      rw [← hab]
      by_cases hfit : off + a.length ≤ mem.length
      · refine List.drop_left' ?_
        rw [List.length_append, List.length_take, List.length_take]
        omega
      · rw [List.drop_eq_nil_of_le, List.drop_eq_nil_of_le (by omega)]
        rw [List.length_append, List.length_append, List.length_take, List.length_take,
          List.length_drop]
        omega
    calc listCopy (listCopy mem off a) off b
        = (listCopy mem off a).take off ++ b.take ((listCopy mem off a).length - off) ++
            (listCopy mem off a).drop (off + b.length) := rfl
      _ = mem.take off ++ b.take (mem.length - off) ++ mem.drop (off + a.length) := by
            rw [htake, hdrop, hL]
      _ = listCopy mem off b := by rw [hab]; rfl
  · rw [listCopy_of_length_lt mem a off (by omega),
      listCopy_of_length_lt mem b off (by omega)]

/-- Bytes outside the copied window are unchanged by `listCopy`. -/
theorem listCopy_getElem?_of_disjoint (mem src : List Nat) (off j : Nat)
    (hj : j < off ∨ off + src.length ≤ j) :
    (listCopy mem off src)[j]? = mem[j]? := by
  by_cases hoff : off ≤ mem.length
  · have hA : (mem.take off).length = off := by
      rw [List.length_take]
      omega
    rcases hj with hj | hj
    · rw [show listCopy mem off src =
          mem.take off ++ (src.take (mem.length - off) ++ mem.drop (off + src.length)) from by
        unfold listCopy
        rw [List.append_assoc]]
      rw [List.getElem?_append, hA, if_pos hj, List.getElem?_take, if_pos hj]
    · by_cases hfit : off + src.length ≤ mem.length
      · have hAB : (mem.take off ++ src.take (mem.length - off)).length
            = off + src.length := by
          rw [List.length_append, List.length_take, List.length_take]
          omega
        rw [show listCopy mem off src =
            (mem.take off ++ src.take (mem.length - off)) ++ mem.drop (off + src.length)
            from rfl]
        rw [List.getElem?_append_right (by rw [hAB]; omega), hAB, List.getElem?_drop]
        congr 1
        omega
      · have hlenEq := listCopy_length mem src off
        rw [List.getElem?_eq_none (show (listCopy mem off src).length ≤ j by
              rw [hlenEq]; omega),
          List.getElem?_eq_none (show mem.length ≤ j by omega)]
  · rw [listCopy_of_length_lt mem src off (by omega)]

/-- Reading back the 26-byte window just copied yields the source. -/
theorem daySlice_listCopy (mem src : List Nat) (off : Nat) (hsrc : src.length = 26)
    (hfit : off + 26 ≤ mem.length) : daySlice (listCopy mem off src) off = src := by
  unfold daySlice
  rw [show listCopy mem off src =
      mem.take off ++ (src.take (mem.length - off) ++ mem.drop (off + src.length)) from by
    unfold listCopy
    rw [List.append_assoc]]
  rw [List.drop_left' (by rw [List.length_take]; omega)]
  rw [List.take_of_length_le (show src.length ≤ mem.length - off by omega)]
  rw [List.take_left' hsrc]

/-- A day slice disjoint from the copied window is unchanged. -/
theorem daySlice_listCopy_disjoint (mem src : List Nat) (off off' : Nat)
    (h : off' + 26 ≤ off ∨ off + src.length ≤ off') :
    daySlice (listCopy mem off src) off' = daySlice mem off' := by
  refine List.ext_getElem? ?_
  intro k
  unfold daySlice
  rw [List.getElem?_take, List.getElem?_take]
  by_cases hk : k < 26
  · rw [if_pos hk, if_pos hk, List.getElem?_drop, List.getElem?_drop]
    refine listCopy_getElem?_of_disjoint mem src off (off' + k) ?_
    omega
  · rw [if_neg hk, if_neg hk]

/-- One weekday pass of `SetPrograms` preserves the memory length. -/
theorem setProgramsDay_length (programs : List Program) (d : Nat) :
    ∀ m : List Nat, (setProgramsDay m programs d).length = m.length := by
  induction programs with
  | nil => intro m; rfl
  | cons pg rest ih =>
    intro m
    unfold setProgramsDay at *
    rw [List.foldl_cons]
    by_cases hbit : (1 <<< d) &&& pg.DayMask ≠ 0
    · rw [if_pos hbit, ih, listCopy_length]
    · rw [if_neg hbit, ih]

/-- One weekday pass of `SetPrograms` amounts to copying the encoding of
the last matching program, or doing nothing when no program matches. -/
theorem setProgramsDay_eq (programs : List Program) (d : Nat) :
    ∀ m : List Nat, setProgramsDay m programs d =
      match (matchingPrograms programs d).getLast? with
      | none => m
      | some pg => listCopy m (programOffset d) (encodeProgramDay pg.Endtimes) := by
  induction programs with
  | nil => intro m; rfl
  | cons pg rest ih =>
    intro m
    unfold setProgramsDay at *
    rw [List.foldl_cons]
    by_cases hbit : (1 <<< d) &&& pg.DayMask ≠ 0
    · rw [if_pos hbit, ih]
      rw [show matchingPrograms (pg :: rest) d = pg :: matchingPrograms rest d from
        List.filter_cons_of_pos (by simpa using hbit)]
      cases hlast : (matchingPrograms rest d).getLast? with
      | none =>
        have hnil : matchingPrograms rest d = [] := by
          cases hmr : matchingPrograms rest d with
          | nil => rfl
          | cons q qs =>
            rw [hmr] at hlast
            simp [List.getLast?_eq_getLast] at hlast
        rw [hnil]
        simp
      | some q =>
        have hne : matchingPrograms rest d ≠ [] := by
          intro hmr
          rw [hmr] at hlast
          cases hlast
        obtain ⟨b, l, hbl⟩ := List.exists_cons_of_ne_nil hne
        rw [hbl, List.getLast?_cons_cons, ← hbl, hlast]
        exact listCopy_absorb m (encodeProgramDay pg.Endtimes)
          (encodeProgramDay q.Endtimes) (programOffset d)
          (by rw [encodeProgramDay_length, encodeProgramDay_length])
    · rw [if_neg hbit, ih]
      rw [show matchingPrograms (pg :: rest) d = matchingPrograms rest d from
        List.filter_cons_of_neg (by simpa using hbit)]

/-- A weekday pass leaves day slices disjoint from its own slot alone. -/
theorem setProgramsDay_slice_untouched (programs : List Program) (d off' : Nat)
    (m : List Nat) (h : off' + 26 ≤ programOffset d ∨ programOffset d + 26 ≤ off') :
    daySlice (setProgramsDay m programs d) off' = daySlice m off' := by
  rw [setProgramsDay_eq]
  cases hlast : (matchingPrograms programs d).getLast? with
  | none => rfl
  | some pg =>
    refine daySlice_listCopy_disjoint m (encodeProgramDay pg.Endtimes)
      (programOffset d) off' ?_
    rw [encodeProgramDay_length]
    omega

/-- The day slot written by a weekday pass holds the last matching
program's encoding, or its prior bytes when no program matches. -/
theorem daySlice_setProgramsDay_self (programs : List Program) (d : Nat)
    (m : List Nat) (hfit : programOffset d + 26 ≤ m.length) :
    daySlice (setProgramsDay m programs d) (programOffset d) =
      match (matchingPrograms programs d).getLast? with
      | none => daySlice m (programOffset d)
      | some pg => encodeProgramDay pg.Endtimes := by
  rw [setProgramsDay_eq]
  cases hlast : (matchingPrograms programs d).getLast? with
  | none => rfl
  | some pg =>
    exact daySlice_listCopy m (encodeProgramDay pg.Endtimes) (programOffset d)
      (encodeProgramDay_length _) hfit

/-- C6 (amended): for each weekday, `SetPrograms` writes at that day's
fixed parameter-memory offset (Saturday 20, Sunday 46, Monday 72,
Tuesday 98, Wednesday 124, Thursday 150, Friday 176) the 26-byte encoding
of the last program in the given list whose `DayMask` has that day's bit
set — each matching program is written in list order, so a later matching
program overrides an earlier one; a day with no matching program keeps
its prior bytes. -/
theorem set_programs_last_match (mem : List Nat) (programs : List Program) (day : Nat)
    (hday : day ∈ setProgramsDays) (hmem : mem.length = 256) :
    daySlice (SetPrograms mem programs) (programOffset day) =
      match (matchingPrograms programs day).getLast? with
      | none => daySlice mem (programOffset day)
      | some pg => encodeProgramDay pg.Endtimes := by
  simp only [SetPrograms, setProgramsDays, List.foldl_cons, List.foldl_nil]
  simp only [setProgramsDays, List.mem_cons, List.not_mem_nil, or_false] at hday
  rcases hday with rfl | rfl | rfl | rfl | rfl | rfl | rfl
  · -- day = 6
    rw [setProgramsDay_slice_untouched programs 5 (programOffset 6) _ (by decide)]
    rw [setProgramsDay_slice_untouched programs 4 (programOffset 6) _ (by decide)]
    rw [setProgramsDay_slice_untouched programs 3 (programOffset 6) _ (by decide)]
    rw [setProgramsDay_slice_untouched programs 2 (programOffset 6) _ (by decide)]
    rw [setProgramsDay_slice_untouched programs 1 (programOffset 6) _ (by decide)]
    rw [setProgramsDay_slice_untouched programs 0 (programOffset 6) _ (by decide)]
    rw [daySlice_setProgramsDay_self programs 6 _ (by
      simp only [setProgramsDay_length, hmem]
      decide)]
  · -- day = 0
    rw [setProgramsDay_slice_untouched programs 5 (programOffset 0) _ (by decide)]
    rw [setProgramsDay_slice_untouched programs 4 (programOffset 0) _ (by decide)]
    rw [setProgramsDay_slice_untouched programs 3 (programOffset 0) _ (by decide)]
    rw [setProgramsDay_slice_untouched programs 2 (programOffset 0) _ (by decide)]
    rw [setProgramsDay_slice_untouched programs 1 (programOffset 0) _ (by decide)]
    rw [daySlice_setProgramsDay_self programs 0 _ (by
      simp only [setProgramsDay_length, hmem]
      decide)]
    rw [setProgramsDay_slice_untouched programs 6 (programOffset 0) _ (by decide)]
  · -- day = 1
    rw [setProgramsDay_slice_untouched programs 5 (programOffset 1) _ (by decide)]
    rw [setProgramsDay_slice_untouched programs 4 (programOffset 1) _ (by decide)]
    rw [setProgramsDay_slice_untouched programs 3 (programOffset 1) _ (by decide)]
    rw [setProgramsDay_slice_untouched programs 2 (programOffset 1) _ (by decide)]
    rw [daySlice_setProgramsDay_self programs 1 _ (by
      simp only [setProgramsDay_length, hmem]
      decide)]
    rw [setProgramsDay_slice_untouched programs 0 (programOffset 1) _ (by decide)]
    rw [setProgramsDay_slice_untouched programs 6 (programOffset 1) _ (by decide)]
  · -- day = 2
    rw [setProgramsDay_slice_untouched programs 5 (programOffset 2) _ (by decide)]
    rw [setProgramsDay_slice_untouched programs 4 (programOffset 2) _ (by decide)]
    rw [setProgramsDay_slice_untouched programs 3 (programOffset 2) _ (by decide)]
    rw [daySlice_setProgramsDay_self programs 2 _ (by
      simp only [setProgramsDay_length, hmem]
      decide)]
    rw [setProgramsDay_slice_untouched programs 1 (programOffset 2) _ (by decide)]
    rw [setProgramsDay_slice_untouched programs 0 (programOffset 2) _ (by decide)]
    rw [setProgramsDay_slice_untouched programs 6 (programOffset 2) _ (by decide)]
  · -- day = 3
    rw [setProgramsDay_slice_untouched programs 5 (programOffset 3) _ (by decide)]
    rw [setProgramsDay_slice_untouched programs 4 (programOffset 3) _ (by decide)]
    rw [daySlice_setProgramsDay_self programs 3 _ (by
      simp only [setProgramsDay_length, hmem]
      decide)]
    rw [setProgramsDay_slice_untouched programs 2 (programOffset 3) _ (by decide)]
    rw [setProgramsDay_slice_untouched programs 1 (programOffset 3) _ (by decide)]
    rw [setProgramsDay_slice_untouched programs 0 (programOffset 3) _ (by decide)]
    rw [setProgramsDay_slice_untouched programs 6 (programOffset 3) _ (by decide)]
  · -- day = 4
    rw [setProgramsDay_slice_untouched programs 5 (programOffset 4) _ (by decide)]
    rw [daySlice_setProgramsDay_self programs 4 _ (by
      simp only [setProgramsDay_length, hmem]
      decide)]
    rw [setProgramsDay_slice_untouched programs 3 (programOffset 4) _ (by decide)]
    rw [setProgramsDay_slice_untouched programs 2 (programOffset 4) _ (by decide)]
    rw [setProgramsDay_slice_untouched programs 1 (programOffset 4) _ (by decide)]
    rw [setProgramsDay_slice_untouched programs 0 (programOffset 4) _ (by decide)]
    rw [setProgramsDay_slice_untouched programs 6 (programOffset 4) _ (by decide)]
  · -- day = 5
    rw [daySlice_setProgramsDay_self programs 5 _ (by
      simp only [setProgramsDay_length, hmem]
      decide)]
    rw [setProgramsDay_slice_untouched programs 4 (programOffset 5) _ (by decide)]
    rw [setProgramsDay_slice_untouched programs 3 (programOffset 5) _ (by decide)]
    rw [setProgramsDay_slice_untouched programs 2 (programOffset 5) _ (by decide)]
    rw [setProgramsDay_slice_untouched programs 1 (programOffset 5) _ (by decide)]
    rw [setProgramsDay_slice_untouched programs 0 (programOffset 5) _ (by decide)]
    rw [setProgramsDay_slice_untouched programs 6 (programOffset 5) _ (by decide)]

/-- Witness: the day-slot theorem applied to a concrete Saturday
program on a zeroed 256-byte memory. -/
theorem set_programs_last_match_witness :
    daySlice (SetPrograms (List.replicate 256 0)
        [{ DayMask := 64, Endtimes := [⟨300, 20⟩] }]) (programOffset 6) =
      encodeProgramDay [(⟨300, 20⟩ : ProgramEntry)] := by
  have h := set_programs_last_match (List.replicate 256 0)
    [{ DayMask := 64, Endtimes := [⟨300, 20⟩] }] 6 (by decide) (by decide)
  rw [h]
  rfl

/-- Counterexample to C6 as stated: two programs both matching Saturday
(bit 6); the memory slot at offset 20 ends up holding the encoding of the
second (last) program, not of the first, so a later program with the
day's bit set does override an earlier one. -/
theorem set_programs_first_counterexample :
    daySlice (SetPrograms (List.replicate 256 0)
        [{ DayMask := 64, Endtimes := [⟨300, 20⟩] },
         { DayMask := 64, Endtimes := [⟨600, 21⟩] }]) 20 =
      encodeProgramDay [(⟨600, 21⟩ : ProgramEntry)] ∧
    daySlice (SetPrograms (List.replicate 256 0)
        [{ DayMask := 64, Endtimes := [⟨300, 20⟩] },
         { DayMask := 64, Endtimes := [⟨600, 21⟩] }]) 20 ≠
      encodeProgramDay [(⟨300, 20⟩ : ProgramEntry)] ∧
    programOffset 6 = 20 ∧ (1 <<< 6) &&& (64 : Nat) ≠ 0 := by
  refine ⟨by decide, by decide, by decide, by decide⟩

end SetProgramsProofs
